import Mathlib

/-!
Verification of the measurement-count aggregation and configuration layer of a
Grover-search robot-localisation program.

The embedding models, from `src/visualizations.py`:
  * the decoding of a measurement key (a bitstring) to a position index,
    `int(key[::-1], 2)`, and its bounds-checked lookup in the `positions` list;
  * the per-consumer aggregation loops (histogram, pie chart, heatmap,
    summary report), including how each treats an out-of-range index;
  * probabilities `v / total_shots`, top-k selection via Python's stable
    `sorted(..., reverse=True)`, Shannon entropy and the certainty metric, and
    the selected-position statistics scan;
and, from `src/research_variations.py` and `src/conf.py`, the variation
catalog, the configuration generator, and the static configuration.

Machine reals (Python floats) are modelled as `ℝ` where logarithms occur and
as `ℚ` for exact ratio computations; fallible Python code (operations that can
raise `ZeroDivisionError`, `IndexError` or `ValueError`) is modelled with
`Option`, `none` standing for a propagated exception.
-/

namespace QCRobot

/-- A grid position, as the dictionaries `{"row": r, "col": c}` of the
`positions` list. -/
structure Pos where
  row : Nat
  col : Nat
deriving DecidableEq, Repr

/-- A counts mapping, as a Python dict in iteration (= insertion) order:
measurement key (bitstring) to shot count. -/
abbrev Counts := List (String × Nat)

/-- Numeric value of one character of a bitstring (`'1'` counts 1, `'0'`
counts 0).  Python's `int(s, 2)` raises on other characters; theorems about
keys carry a bitstring hypothesis where that matters. -/
def bitOf (c : Char) : Nat := if c = '1' then 1 else 0

/-- Decoded position index of a measurement key: `int(key[::-1], 2)`, the
key reversed and read as an unsigned binary numeral (most significant digit
first after reversal). -/
def posIdx (key : String) : Nat :=
  key.data.reverse.foldl (fun acc c => 2 * acc + bitOf c) 0

/-- Resolution of a key to a position: every consumer computes
`pos_idx = int(key[::-1], 2)` and takes `positions[pos_idx]` only after the
bound check `pos_idx < len(positions)`; out of range resolves to nothing. -/
def resolve (key : String) (positions : List Pos) : Option Pos :=
  if h : posIdx key < positions.length then some (positions.get ⟨posIdx key, h⟩)
  else none

/-- Total shots: `sum(counts.values())`. -/
def totalShots (counts : Counts) : Nat := (counts.map (·.2)).sum

lemma foldl_reverse_ofDigits (l : List Char) (a : Nat) :
    l.reverse.foldl (fun acc c => 2 * acc + bitOf c) a
      = a * 2 ^ l.length + Nat.ofDigits 2 (l.map bitOf) := by
  induction l generalizing a with
  | nil => simp [Nat.ofDigits]
  | cons c t ih =>
    rw [List.reverse_cons, List.foldl_append]
    simp only [List.foldl_cons, List.foldl_nil, List.map_cons, Nat.ofDigits_cons,
      List.length_cons, ih]
    ring

lemma posIdx_eq_ofDigits (key : String) :
    posIdx key = Nat.ofDigits 2 (key.data.map bitOf) := by
  unfold posIdx
  rw [foldl_reverse_ofDigits]
  simp

lemma resolve_eq_getElem (key : String) (positions : List Pos) :
    resolve key positions = positions[posIdx key]? := by
  unfold resolve
  split
  case isTrue h =>
    rw [List.getElem?_eq_getElem h]
    simp
  case isFalse h =>
    rw [List.getElem?_eq_none]
    omega

/-- C1: resolving a measurement key reverses the key's characters and parses
the result as an unsigned binary integer — equivalently, the index is the
little-endian digit value `Nat.ofDigits 2` of the unreversed key — and uses
that integer as an index into the positions sequence; on the four-position
square grid the key "01" resolves to position (1,0). -/
theorem resolve_reverses_and_parses_binary (key : String) (positions : List Pos)
    (_hbits : ∀ c ∈ key.data, c = '0' ∨ c = '1') :
    resolve key positions = positions[Nat.ofDigits 2 (key.data.map bitOf)]? ∧
    resolve "01" [⟨0, 0⟩, ⟨0, 1⟩, ⟨1, 0⟩, ⟨1, 1⟩] = some ⟨1, 0⟩ := by
  constructor
  · rw [resolve_eq_getElem, posIdx_eq_ofDigits]
  · decide

/-- Witness for C1 at key "01" and the four-position square grid. -/
theorem resolve_reverses_and_parses_binary_witness :
    (∀ c ∈ ("01" : String).data, c = '0' ∨ c = '1') ∧
    (resolve "01" [⟨0, 0⟩, ⟨0, 1⟩, ⟨1, 0⟩, ⟨1, 1⟩]
        = ([⟨0, 0⟩, ⟨0, 1⟩, ⟨1, 0⟩, ⟨1, 1⟩] : List Pos)[Nat.ofDigits 2
            (("01" : String).data.map bitOf)]? ∧
      resolve "01" [⟨0, 0⟩, ⟨0, 1⟩, ⟨1, 0⟩, ⟨1, 1⟩] = some ⟨1, 0⟩) :=
  ⟨by decide, resolve_reverses_and_parses_binary "01" [⟨0, 0⟩, ⟨0, 1⟩, ⟨1, 0⟩, ⟨1, 1⟩]
    (by decide)⟩

/-- Ordering used by `sorted(counts.items(), key=lambda x: x[1], reverse=True)`:
`a` may precede `b` exactly when `b`'s count is at most `a`'s. -/
def cntGe (a b : String × Nat) : Prop := b.2 ≤ a.2

instance : DecidableRel cntGe := fun a b => Nat.decLe b.2 a.2

instance : IsTotal (String × Nat) cntGe := ⟨fun a b => Nat.le_total b.2 a.2⟩

instance : IsTrans (String × Nat) cntGe := ⟨fun _ _ _ hab hbc => le_trans hbc hab⟩

/-- Python's `sorted(counts.items(), key=lambda x: x[1], reverse=True)`:
a stable sort, descending by count, ties kept in input iteration order. -/
def sortDesc (counts : Counts) : Counts := List.insertionSort cntGe counts

/-- Top-k selection, `sorted(counts.items(), ...)[:k]` (`k` is 5 for the
`top_5` dict and 15 for the histogram display limit). -/
def topK (k : Nat) (counts : Counts) : Counts := (sortDesc counts).take k

lemma filter_orderedInsert_count (c : Nat) (a : String × Nat)
    (l : List (String × Nat)) :
    (List.orderedInsert cntGe a l).filter (fun x => x.2 = c)
      = if a.2 = c then a :: l.filter (fun x => x.2 = c)
        else l.filter (fun x => x.2 = c) := by
  induction l with
  | nil =>
    by_cases h : a.2 = c <;> simp [List.orderedInsert, List.filter_cons, h]
  | cons b t ih =>
    rw [List.orderedInsert]
    by_cases hr : cntGe a b
    · rw [if_pos hr]
      by_cases h : a.2 = c <;> simp [List.filter_cons, h]
    · rw [if_neg hr]
      by_cases hb : b.2 = c
      · have ha : ¬ a.2 = c := by
          unfold cntGe at hr
          omega
        simp [List.filter_cons, hb, ha, ih]
      · by_cases ha : a.2 = c <;> simp [List.filter_cons, hb, ha, ih]

lemma filter_sortDesc (counts : Counts) (c : Nat) :
    (sortDesc counts).filter (fun x => x.2 = c)
      = counts.filter (fun x => x.2 = c) := by
  unfold sortDesc
  induction counts with
  | nil => rfl
  | cons a t ih =>
    rw [List.insertionSort, filter_orderedInsert_count]
    by_cases h : a.2 = c <;> simp [List.filter_cons, h, ih]

/-- C4: the top-k selection is sorted non-increasingly by count, has length
`min k n` where `n` is the number of distinct keys, and the underlying sort is
stable: for each count value the keys carrying it appear in input iteration
order (filtering the sorted list by a count value gives exactly the input
filtered by that value). -/
theorem topK_sorted_length_stable (counts : Counts) (k : Nat) :
    List.Sorted cntGe (topK k counts) ∧
    (topK k counts).length = min k counts.length ∧
    ∀ c : Nat, (sortDesc counts).filter (fun x => x.2 = c)
        = counts.filter (fun x => x.2 = c) := by
  refine ⟨?_, ?_, fun c => filter_sortDesc counts c⟩
  · exact (List.sorted_insertionSort cntGe counts).sublist (List.take_sublist k _)
  · unfold topK sortDesc
    rw [List.length_take, List.length_insertionSort]

/-- Label of a pie-chart slice in `create_probability_distribution`: a
resolved position rendered as `(row,col)`, an unresolved key rendered as the
raw key string, or the aggregate Others slice. -/
inductive PieLabel where
  | pos (p : Pos)
  | raw (key : String)
  | others
deriving DecidableEq, Repr

/-- Ordering for `sorted(probabilities.items(), key=lambda x: x[1],
reverse=True)` over rational probabilities. -/
def cntGeQ (a b : String × ℚ) : Prop := b.2 ≤ a.2

instance : DecidableRel cntGeQ := fun a b => inferInstanceAs (Decidable (b.2 ≤ a.2))

/-- Labels of the probability pie chart (`create_probability_distribution`):
the top five probabilities in descending order, where a key whose decoded
index is in range is labelled with its position and an out-of-range key is
labelled with the raw key itself (`labels.append(key)`), followed by an
Others slice when the remaining probability mass is positive. -/
def pieLabels (probabilities : List (String × ℚ)) (positions : List Pos) :
    List PieLabel :=
  let sortedProbs := List.insertionSort cntGeQ probabilities
  let top5 := sortedProbs.take 5
  let otherProb := ((sortedProbs.drop 5).map (·.2)).sum
  (top5.map fun kv =>
    if h : posIdx kv.1 < positions.length then
      PieLabel.pos (positions.get ⟨posIdx kv.1, h⟩)
    else PieLabel.raw kv.1)
  ++ (if 0 < otherProb then [PieLabel.others] else [])

/-- Entries the enhanced histogram plots (`create_enhanced_histogram`): the
top `min 15 n` keys in descending count order, each kept only when its
decoded index is in range. -/
def histogramEntries (counts : Counts) (positions : List Pos) :
    List (Pos × Nat) :=
  let sortedCounts := sortDesc counts
  let displayLimit := min 15 sortedCounts.length
  (sortedCounts.take displayLimit).filterMap fun kv =>
    if h : posIdx kv.1 < positions.length then
      some (positions.get ⟨posIdx kv.1, h⟩, kv.2)
    else none

/-- Cell writes of the search-space heatmap (`create_search_space_analysis`):
each key whose decoded index is in range contributes its count at the
resolved position; out-of-range keys contribute nothing. -/
def heatmapEntries (counts : Counts) (positions : List Pos) :
    List (Pos × Nat) :=
  counts.filterMap fun kv =>
    if h : posIdx kv.1 < positions.length then
      some (positions.get ⟨posIdx kv.1, h⟩, kv.2)
    else none

/-- Top-5 result lines of `generate_summary_report`: the five largest counts,
each printed only when its decoded index is in range. -/
def reportTop5Entries (counts : Counts) (positions : List Pos) :
    List (Pos × Nat) :=
  ((sortDesc counts).take 5).filterMap fun kv =>
    if h : posIdx kv.1 < positions.length then
      some (positions.get ⟨posIdx kv.1, h⟩, kv.2)
    else none

/-- The silent-skip policy the spec asserts for the pie chart: a key whose
decoded index is out of the positions range is omitted from the output, in
particular never rendered through its raw key. -/
def pieSkipsUnresolved (probabilities : List (String × ℚ))
    (positions : List Pos) : Prop :=
  ∀ l ∈ pieLabels probabilities positions, ∀ key, l ≠ PieLabel.raw key

/-- C2 counterexample: with the single-entry probability mapping for key "1"
and an empty positions list, the decoded index 1 is out of range, yet the pie
chart keeps the entry and labels it with the raw key instead of skipping it,
so the skip policy is not uniform across consumers. -/
theorem pie_renders_unresolved_key_cex :
    pieLabels [("1", (1 : ℚ))] [] = [PieLabel.raw "1"] ∧
    ¬ pieSkipsUnresolved [("1", (1 : ℚ))] [] := by
  constructor
  · decide
  · intro h
    exact h (PieLabel.raw "1") (by decide) "1" rfl


/-- C2 (amended): the histogram, the heatmap and the summary report silently
skip every key whose decoded index is out of the positions range (each of
their output entries carries a position of the positions list), while the pie
chart keeps such entries: each of its labels is either a position of the
list, the Others slice, or the raw key of an entry whose decoded index is out
of range. -/
theorem skip_policy_per_consumer (counts : Counts)
    (probabilities : List (String × ℚ)) (positions : List Pos) :
    (∀ e ∈ histogramEntries counts positions, e.1 ∈ positions) ∧
    (∀ e ∈ heatmapEntries counts positions, e.1 ∈ positions) ∧
    (∀ e ∈ reportTop5Entries counts positions, e.1 ∈ positions) ∧
    (∀ l ∈ pieLabels probabilities positions,
      (∃ p ∈ positions, l = PieLabel.pos p) ∨ l = PieLabel.others ∨
      ∃ kv ∈ probabilities, positions.length ≤ posIdx kv.1 ∧
        l = PieLabel.raw kv.1) := by
  refine ⟨?_, ?_, ?_, ?_⟩
  · intro e he
    simp only [histogramEntries, List.mem_filterMap] at he
    obtain ⟨kv, _, hkv⟩ := he
    split at hkv
    · cases hkv
      exact List.get_mem _ _ _
    · cases hkv
  · intro e he
    simp only [heatmapEntries, List.mem_filterMap] at he
    obtain ⟨kv, _, hkv⟩ := he
    split at hkv
    · cases hkv
      exact List.get_mem _ _ _
    · cases hkv
  · intro e he
    simp only [reportTop5Entries, List.mem_filterMap] at he
    obtain ⟨kv, _, hkv⟩ := he
    split at hkv
    · cases hkv
      exact List.get_mem _ _ _
    · cases hkv
  · intro l hl
    simp only [pieLabels, List.mem_append, List.mem_map] at hl
    rcases hl with ⟨kv, hkv, hlab⟩ | hothers
    · have hmem : kv ∈ probabilities := by
        have h1 : kv ∈ List.insertionSort cntGeQ probabilities :=
          List.mem_of_mem_take hkv
        exact (List.mem_insertionSort cntGeQ).mp h1
      split at hlab
      · exact Or.inl ⟨_, List.get_mem _ _ _, hlab.symm⟩
      · refine Or.inr (Or.inr ⟨kv, hmem, ?_, hlab.symm⟩)
        omega
    · split at hothers
      · simp only [List.mem_singleton] at hothers
        exact Or.inr (Or.inl hothers)
      · cases hothers

/-- Embedding of a Python loop or comprehension whose body may raise: the
first raising iteration aborts the whole computation. -/
def mapOption {α β : Type} (f : α → Option β) : List α → Option (List β)
  | [] => some []
  | a :: t =>
    Option.bind (f a) fun b =>
      Option.bind (mapOption f t) fun bs => some (b :: bs)

/-- Probability mapping of `create_comprehensive_visualization`
(`probabilities = {k: v/total_shots for k, v in counts.items()}`): each
iteration divides by `total_shots`, raising `ZeroDivisionError` (modelled by
`none`) when the total is zero; the empty comprehension performs no
division. -/
def probabilitiesQ (counts : Counts) : Option (List (String × ℚ)) :=
  mapOption (fun kv =>
    if totalShots counts = 0 then none
    else some (kv.1, (kv.2 : ℚ) / (totalShots counts : ℚ))) counts

/-- Top-result confidence of the success-metrics section of
`generate_summary_report` (`top_prob = (sorted_results[0][1] / total_shots) *
100`): indexing an empty sorted results list raises `IndexError`, and a zero
`total_shots` raises `ZeroDivisionError` (both modelled by `none`). -/
def reportTopConfidence (counts : Counts) (total_shots : Nat) : Option ℚ :=
  match sortDesc counts with
  | [] => none
  | r :: _ =>
    if total_shots = 0 then none
    else some ((r.2 : ℚ) / (total_shots : ℚ) * 100)

/-- C3 counterexample: for the counts mapping with the single key "0" at
count 0 the total shots are zero, and the probability computation propagates
the division-by-zero exception (modelled by `none`) instead of guarding with
an error message or a sentinel. -/
theorem probabilities_zero_shots_raises_cex :
    totalShots [("0", 0)] = 0 ∧ probabilitiesQ [("0", 0)] = none ∧
    reportTopConfidence [("0", 0)] (totalShots [("0", 0)]) = none := by
  refine ⟨rfl, ?_, rfl⟩
  decide

lemma mapOption_some {α β : Type} (g : α → β) :
    ∀ l : List α, mapOption (fun x => some (g x)) l = some (l.map g)
  | [] => rfl
  | a :: t => by
    simp [mapOption, mapOption_some g t]

/-- C3 (amended): the probability computation has precondition
`total_shots > 0` but the cited sites do not guard it: with an empty counts
mapping the comprehension yields an empty mapping and no exception occurs,
while with a non-empty counts mapping of zero total shots the
division-by-zero exception propagates to the caller (and the summary-report
confidence likewise propagates an exception on zero total shots or an empty
mapping); when the total is positive, every key receives `value/total_shots`
with no error. -/
theorem probabilities_unguarded (counts : Counts) (hne : counts ≠ [])
    (hz : totalShots counts = 0) :
    probabilitiesQ counts = none ∧
    probabilitiesQ [] = some [] ∧
    reportTopConfidence counts (totalShots counts) = none ∧
    ∀ cs : Counts, 0 < totalShots cs →
      probabilitiesQ cs
        = some (cs.map fun kv => (kv.1, (kv.2 : ℚ) / (totalShots cs : ℚ))) := by
  refine ⟨?_, rfl, ?_, ?_⟩
  · match counts, hne with
    | kv :: rest, _ =>
      simp [probabilitiesQ, mapOption, hz]
  · rw [hz]
    unfold reportTopConfidence
    split
    · rfl
    · simp
  · intro cs hpos
    have hns : ¬ totalShots cs = 0 := by omega
    unfold probabilitiesQ
    simp only [hns, if_false]
    exact mapOption_some _ cs

/-- Witness for the amended C3 at the counts mapping with key "0" and 0
shots. -/
theorem probabilities_unguarded_witness :
    (([("0", 0)] : Counts) ≠ [] ∧ totalShots [("0", 0)] = 0) ∧
    (probabilitiesQ [("0", 0)] = none ∧
     probabilitiesQ [] = some [] ∧
     reportTopConfidence [("0", 0)] (totalShots [("0", 0)]) = none ∧
     ∀ cs : Counts, 0 < totalShots cs →
       probabilitiesQ cs
         = some (cs.map fun kv => (kv.1, (kv.2 : ℚ) / (totalShots cs : ℚ)))) :=
  ⟨⟨by decide, by decide⟩,
    probabilities_unguarded [("0", 0)] (by decide) (by decide)⟩

/-- Matching of a measurement key against the selected cell: the key resolves
to a position whose row and column equal the selected row and column
(`pos['row'] == selected_row and pos['col'] == selected_col`). -/
def keyMatches (key : String) (positions : List Pos) (row col : Int) : Prop :=
  ∃ p, resolve key positions = some p ∧ (p.row : Int) = row ∧ (p.col : Int) = col

instance (key : String) (positions : List Pos) (row col : Int) :
    Decidable (keyMatches key positions row col) := by
  unfold keyMatches
  exact inferInstance

/-- Selected-position scan of `create_enhanced_map_visualization` and
`generate_summary_report`: walk the counts in iteration order, resolve each
key, and stop (`break`) at the first whose resolved position matches the
selected row and column, returning its count; zero when no key matches. -/
def selectedCount (counts : Counts) (positions : List Pos) (row col : Int) :
    Nat :=
  match counts with
  | [] => 0
  | (k, v) :: rest =>
    if keyMatches k positions row col then v
    else selectedCount rest positions row col

/-- Selected-position statistics: the scanned count together with its
percentage share of total shots, the share being 0 when total shots is zero
(`prob = (selected_count / total_shots) * 100 if total_shots > 0 else 0`). -/
def selectedStats (counts : Counts) (positions : List Pos) (row col : Int) :
    Nat × ℚ :=
  let c := selectedCount counts positions row col
  let ts := totalShots counts
  (c, if 0 < ts then (c : ℚ) / (ts : ℚ) * 100 else 0)

lemma resolve_mem {key : String} {positions : List Pos} {p : Pos}
    (h : resolve key positions = some p) : p ∈ positions := by
  unfold resolve at h
  split at h
  · cases h
    exact List.get_mem _ _ _
  · cases h

lemma selectedCount_cons_not_match {k : String} {v : Nat} {rest : Counts}
    {positions : List Pos} {row col : Int}
    (h : ¬ keyMatches k positions row col) :
    selectedCount ((k, v) :: rest) positions row col
      = selectedCount rest positions row col := by
  simp only [selectedCount, if_neg h]

lemma selectedCount_no_match (counts : Counts) (positions : List Pos)
    (row col : Int)
    (h : ∀ kv ∈ counts, ¬ keyMatches kv.1 positions row col) :
    selectedCount counts positions row col = 0 := by
  induction counts with
  | nil => rfl
  | cons kv rest ih =>
    obtain ⟨k, v⟩ := kv
    rw [selectedCount_cons_not_match (h (k, v) (List.mem_cons_self _ _))]
    exact ih fun x hx => h x (List.mem_cons_of_mem _ hx)

lemma selectedCount_first_match (positions : List Pos) (row col : Int)
    (pre : Counts) (k : String) (v : Nat) (rest : Counts)
    (hpre : ∀ kv ∈ pre, ¬ keyMatches kv.1 positions row col)
    (hk : keyMatches k positions row col) :
    selectedCount (pre ++ (k, v) :: rest) positions row col = v := by
  induction pre with
  | nil =>
    simp only [List.nil_append, selectedCount, if_pos hk]
  | cons a pre ih =>
    obtain ⟨a1, a2⟩ := a
    rw [List.cons_append,
      selectedCount_cons_not_match (hpre (a1, a2) (List.mem_cons_self _ _))]
    exact ih fun x hx => hpre x (List.mem_cons_of_mem _ hx)

/-- C7: the selected-position statistics arise from a linear scan returning
the first matching key's count and its percentage share of total shots; when
no key resolves to the selected cell the result is count 0 and probability 0
(in particular for a cell absent from the positions list), and the share is
`count/total·100` whenever total shots is positive — the operation is total
and never raises. -/
theorem selectedStats_spec (counts : Counts) (positions : List Pos)
    (row col : Int) :
    ((∀ kv ∈ counts, ¬ keyMatches kv.1 positions row col) →
        selectedStats counts positions row col = (0, 0)) ∧
    ((∀ p ∈ positions, ¬ ((p.row : Int) = row ∧ (p.col : Int) = col)) →
        selectedStats counts positions row col = (0, 0)) ∧
    (∀ pre k v rest, counts = pre ++ (k, v) :: rest →
        (∀ kv ∈ pre, ¬ keyMatches kv.1 positions row col) →
        keyMatches k positions row col →
        (selectedStats counts positions row col).1 = v) ∧
    (0 < totalShots counts →
        (selectedStats counts positions row col).2
          = ((selectedStats counts positions row col).1 : ℚ)
              / (totalShots counts : ℚ) * 100) := by
  have hzero : (∀ kv ∈ counts, ¬ keyMatches kv.1 positions row col) →
      selectedStats counts positions row col = (0, 0) := by
    intro h
    unfold selectedStats
    rw [selectedCount_no_match counts positions row col h]
    simp
  refine ⟨hzero, ?_, ?_, ?_⟩
  · intro habs
    refine hzero fun kv _ hm => ?_
    obtain ⟨p, hres, hrc⟩ := hm
    exact habs p (resolve_mem hres) hrc
  · intro pre k v rest hsplit hpre hk
    subst hsplit
    exact selectedCount_first_match positions row col pre k v rest hpre hk
  · intro hpos
    unfold selectedStats
    simp only [hpos, if_pos]

/-- Witness for C7 on the counts mapping "0" at 4 shots, a one-position list
and selected cell (5,5): the cell is absent, so the statistics are count 0
and probability 0. -/
theorem selectedStats_spec_witness :
    selectedStats [("0", 4)] [⟨0, 0⟩] 5 5 = (0, 0) :=
  (selectedStats_spec [("0", 4)] [⟨0, 0⟩] 5 5).2.1 (by decide)

/-- One catalog entry of `research_variations.VARIATIONS`: a row sensor
pattern, a column sensor pattern, and a 6x6 map given as rows of
space-separated binary tokens. -/
structure Variation where
  pattern_row : List String
  pattern_col : List String
  map : List (List String)
deriving DecidableEq, Repr

/-- The fixed variation catalog of `research_variations.py`, in declaration
(= dict iteration) order. -/
def VARIATIONS : List (String × Variation) := [
  ("sparse_6x6",
    { pattern_row := ["1", "1", "0", "0"], pattern_col := ["1", "1", "0", "0"],
      map := [["1 1 0 0 1 0 "], ["0 0 1 1 0 1 "], ["1 1 0 0 1 1 "],
              ["0 1 1 0 0 0 "], ["1 0 0 1 1 0 "], ["0 1 0 1 0 1 "]] }),
  ("dense_6x6",
    { pattern_row := ["1", "1", "0", "0"], pattern_col := ["1", "1", "0", "0"],
      map := [["1 1 1 1 1 1 "], ["1 1 1 1 1 1 "], ["1 1 1 1 1 1 "],
              ["1 1 1 1 1 1 "], ["1 1 1 1 1 1 "], ["1 1 1 1 1 1 "]] }),
  ("target_6x6",
    { pattern_row := ["1", "1", "0", "0"], pattern_col := ["1", "1", "0", "0"],
      map := [["0 0 0 0 0 0 "], ["0 0 0 0 0 0 "], ["0 0 1 1 0 0 "],
              ["0 0 1 1 0 0 "], ["0 0 0 0 0 0 "], ["0 0 0 0 0 0 "]] }),
  ("checkerboard_6x6",
    { pattern_row := ["1", "0", "1"], pattern_col := ["1", "0", "1"],
      map := [["1 0 1 0 1 0 "], ["0 1 0 1 0 1 "], ["1 0 1 0 1 0 "],
              ["0 1 0 1 0 1 "], ["1 0 1 0 1 0 "], ["0 1 0 1 0 1 "]] }),
  ("small_pattern_6x6",
    { pattern_row := ["1", "1"], pattern_col := ["1", "1"],
      map := [["1 1 0 0 1 0 "], ["0 0 1 1 0 1 "], ["1 1 0 0 1 1 "],
              ["0 1 1 0 0 0 "], ["1 0 0 1 1 0 "], ["0 1 0 1 0 1 "]] }),
  ("medium_pattern_6x6",
    { pattern_row := ["1", "1", "0"], pattern_col := ["1", "1", "0"],
      map := [["1 1 0 0 1 0 "], ["0 0 1 1 0 1 "], ["1 1 0 0 1 1 "],
              ["0 1 1 0 0 0 "], ["1 0 0 1 1 0 "], ["0 1 0 1 0 1 "]] }),
  ("asymmetric_6x6",
    { pattern_row := ["1", "0", "1"], pattern_col := ["1", "1", "0"],
      map := [["1 1 0 0 1 0 "], ["0 0 1 1 0 1 "], ["1 1 0 0 1 1 "],
              ["0 1 1 0 0 0 "], ["1 0 0 1 1 0 "], ["0 1 0 1 0 1 "]] })]

/-- Semantic content of the `conf.py` text materialised by
`generate_conf_file`, as evaluated when the file is imported: the variation's
patterns and map, and `REUSE_ROW_COL_QUBITS` bound to the expression
`inp_pattern_row==inp_pattern_col` over the written patterns. -/
structure GeneratedConf where
  inp_pattern_row : List String
  inp_pattern_col : List String
  inp_map_string : List (List String)
  reuse_row_col_qubits : Bool
deriving DecidableEq, Repr

/-- Names of the catalog entries, in the order the error message lists them
(`', '.join(VARIATIONS.keys())`). -/
def availableVariations : List String := VARIATIONS.map Prod.fst

/-- Catalog lookup `VARIATIONS[variation_name]`, guarded by the membership
test `variation_name not in VARIATIONS`. -/
def lookupVariation (name : String) : Option Variation :=
  (VARIATIONS.find? fun p => p.1 = name).map Prod.snd

/-- `generate_conf_file`: nothing (after reporting the unknown name together
with the available catalog) when the name is not registered, otherwise the
configuration content for the variation. -/
def generate_conf_file (name : String) : Option GeneratedConf :=
  (lookupVariation name).map fun var =>
    { inp_pattern_row := var.pattern_row
      inp_pattern_col := var.pattern_col
      inp_map_string := var.map
      reuse_row_col_qubits := var.pattern_row == var.pattern_col }

/-- State of `conf.py` after running the switcher on a name (`__main__`):
the file is rewritten exactly when `generate_conf_file` produced content
(`if conf_content:`); otherwise the previous configuration is untouched. -/
def confFileAfter (name : String) (old : Option GeneratedConf) :
    Option GeneratedConf :=
  match generate_conf_file name with
  | some conf => some conf
  | none => old

/-- C8: for every variation name outside the catalog the switcher fails with
a not-found result rather than a crash: no configuration content is
generated, the previously active configuration file is left exactly as it
was, and the reported catalog consists of the 7 known names. -/
theorem unknown_variation_fails (name : String) (old : Option GeneratedConf)
    (h : name ∉ availableVariations) :
    generate_conf_file name = none ∧
    confFileAfter name old = old ∧
    availableVariations = ["sparse_6x6", "dense_6x6", "target_6x6",
      "checkerboard_6x6", "small_pattern_6x6", "medium_pattern_6x6",
      "asymmetric_6x6"] ∧
    availableVariations.length = 7 := by
  have hfind : VARIATIONS.find? (fun p => p.1 = name) = none := by
    rw [List.find?_eq_none]
    intro p hp
    simp only [decide_eq_true_eq]
    intro heq
    exact h (heq ▸ List.mem_map_of_mem Prod.fst hp)
  have hgen : generate_conf_file name = none := by
    unfold generate_conf_file lookupVariation
    rw [hfind]
    rfl
  refine ⟨hgen, ?_, by decide, by decide⟩
  unfold confFileAfter
  rw [hgen]

/-- Witness for C8 at the unknown name "foo". -/
theorem unknown_variation_fails_witness :
    ("foo" ∉ availableVariations) ∧
    (generate_conf_file "foo" = none ∧
     confFileAfter "foo" none = none ∧
     availableVariations = ["sparse_6x6", "dense_6x6", "target_6x6",
       "checkerboard_6x6", "small_pattern_6x6", "medium_pattern_6x6",
       "asymmetric_6x6"] ∧
     availableVariations.length = 7) :=
  ⟨by decide, unknown_variation_fails "foo" none (by decide)⟩

/-- Count of binary tokens of a map: every `'0'` or `'1'` character of the
space-separated row strings is one token. -/
def binaryTokenCount (m : List (List String)) : Nat :=
  (m.map fun row =>
    (row.map fun s => (s.data.filter fun c => c = '0' ∨ c = '1').length).sum).sum

/-- C9: the switcher run on "sparse_6x6" produces a configuration whose row
and column patterns both equal ["1","1","0","0"] and whose map holds exactly
36 binary tokens (6 rows of 6 cells). -/
theorem sparse_6x6_conf :
    (generate_conf_file "sparse_6x6").map (·.inp_pattern_row)
        = some ["1", "1", "0", "0"] ∧
    (generate_conf_file "sparse_6x6").map (·.inp_pattern_col)
        = some ["1", "1", "0", "0"] ∧
    (generate_conf_file "sparse_6x6").map
        (fun conf => binaryTokenCount conf.inp_map_string) = some 36 := by
  refine ⟨?_, ?_, ?_⟩ <;> decide

/-- Static row sensor pattern of `conf.py`. -/
def inp_pattern_row : List String := ["1", "0"]

/-- Static column sensor pattern of `conf.py`. -/
def inp_pattern_col : List String := ["0", "1"]

/-- Static field `CONFIG["REUSE_ROW_COL_QUBITS"]` of `conf.py`, bound to the
expression `inp_pattern_row==inp_pattern_col`. -/
def REUSE_ROW_COL_QUBITS : Bool := inp_pattern_row == inp_pattern_col

/-- C10: in the static configuration and in every configuration the switcher
generates, the REUSE_ROW_COL_QUBITS field is true exactly when the row
pattern list equals the column pattern list; among the 7 catalog variations
the patterns differ only for asymmetric_6x6. -/
theorem reuse_iff_equal_patterns (name : String) (conf : GeneratedConf)
    (h : generate_conf_file name = some conf) :
    (REUSE_ROW_COL_QUBITS = true ↔ inp_pattern_row = inp_pattern_col) ∧
    (conf.reuse_row_col_qubits = true ↔
        conf.inp_pattern_row = conf.inp_pattern_col) ∧
    (VARIATIONS.filter fun p =>
        ¬ p.2.pattern_row = p.2.pattern_col).map Prod.fst
      = ["asymmetric_6x6"] := by
  refine ⟨by decide, ?_, by decide⟩
  unfold generate_conf_file at h
  cases hl : lookupVariation name with
  | none =>
    rw [hl] at h
    cases h
  | some var =>
    rw [hl, Option.map_some'] at h
    cases h
    exact beq_iff_eq

/-- Witness for C10 at the sparse_6x6 variation. -/
theorem reuse_iff_equal_patterns_witness :
    generate_conf_file "sparse_6x6" = some
      { inp_pattern_row := ["1", "1", "0", "0"],
        inp_pattern_col := ["1", "1", "0", "0"],
        inp_map_string := [["1 1 0 0 1 0 "], ["0 0 1 1 0 1 "],
          ["1 1 0 0 1 1 "], ["0 1 1 0 0 0 "], ["1 0 0 1 1 0 "],
          ["0 1 0 1 0 1 "]],
        reuse_row_col_qubits := true } ∧
    ((REUSE_ROW_COL_QUBITS = true ↔ inp_pattern_row = inp_pattern_col) ∧
     (({ inp_pattern_row := ["1", "1", "0", "0"],
         inp_pattern_col := ["1", "1", "0", "0"],
         inp_map_string := [["1 1 0 0 1 0 "], ["0 0 1 1 0 1 "],
           ["1 1 0 0 1 1 "], ["0 1 1 0 0 0 "], ["1 0 0 1 1 0 "],
           ["0 1 0 1 0 1 "]],
         reuse_row_col_qubits := true } : GeneratedConf).reuse_row_col_qubits
          = true ↔
       ({ inp_pattern_row := ["1", "1", "0", "0"],
          inp_pattern_col := ["1", "1", "0", "0"],
          inp_map_string := [["1 1 0 0 1 0 "], ["0 0 1 1 0 1 "],
            ["1 1 0 0 1 1 "], ["0 1 1 0 0 0 "], ["1 0 0 1 1 0 "],
            ["0 1 0 1 0 1 "]],
          reuse_row_col_qubits := true } : GeneratedConf).inp_pattern_row
          = ({ inp_pattern_row := ["1", "1", "0", "0"],
               inp_pattern_col := ["1", "1", "0", "0"],
               inp_map_string := [["1 1 0 0 1 0 "], ["0 0 1 1 0 1 "],
                 ["1 1 0 0 1 1 "], ["0 1 1 0 0 0 "], ["1 0 0 1 1 0 "],
                 ["0 1 0 1 0 1 "]],
               reuse_row_col_qubits := true } : GeneratedConf).inp_pattern_col) ∧
     (VARIATIONS.filter fun p =>
         ¬ p.2.pattern_row = p.2.pattern_col).map Prod.fst
       = ["asymmetric_6x6"]) :=
  ⟨by decide, reuse_iff_equal_patterns "sparse_6x6" _ (by decide)⟩

/-- Empirical probability list of `create_performance_metrics` and
`generate_summary_report` (`probabilities = [v/total_shots for v in
counts.values()]`), Python floats modelled over the reals. -/
noncomputable def probsR (counts : Counts) : List ℝ :=
  counts.map fun kv => (kv.2 : ℝ) / (totalShots counts : ℝ)

/-- Result entropy in bits (`entropy = -sum([p * math.log2(p) if p > 0 else 0
for p in probabilities])`). -/
noncomputable def entropy (counts : Counts) : ℝ :=
  -((probsR counts).map fun p => if 0 < p then p * Real.logb 2 p else 0).sum

/-- Maximum entropy `math.log2(len(counts))` (the Python call raises on an
empty dict, so theorems about it assume a non-empty counts mapping). -/
noncomputable def maxEntropy (counts : Counts) : ℝ :=
  Real.logb 2 (counts.length : ℝ)

/-- Normalized entropy percentage
(`(entropy / max_entropy) * 100 if max_entropy > 0 else 0`). -/
noncomputable def normalizedEntropy (counts : Counts) : ℝ :=
  if 0 < maxEntropy counts then entropy counts / maxEntropy counts * 100 else 0

/-- Certainty metric of `create_performance_metrics`
(`'Certainty': 100 - normalized_entropy`). -/
noncomputable def certaintyMetric (counts : Counts) : ℝ :=
  100 - normalizedEntropy counts

lemma term_eq_negMulLog {p : ℝ} (hp : 0 ≤ p) :
    (if 0 < p then p * Real.logb 2 p else 0)
      = -Real.negMulLog p / Real.log 2 := by
  rcases eq_or_lt_of_le hp with h | h
  · rw [if_neg (by rw [← h]; exact lt_irrefl 0), ← h]
    simp [Real.negMulLog]
  · rw [if_pos h]
    unfold Real.negMulLog Real.logb
    ring

lemma probsR_nonneg (counts : Counts) : ∀ p ∈ probsR counts, 0 ≤ p := by
  intro p hp
  obtain ⟨kv, _, rfl⟩ := List.mem_map.mp hp
  exact div_nonneg (Nat.cast_nonneg _) (Nat.cast_nonneg _)

lemma probsR_le_one (counts : Counts) (hT : 0 < totalShots counts) :
    ∀ p ∈ probsR counts, p ≤ 1 := by
  intro p hp
  obtain ⟨kv, hkv, rfl⟩ := List.mem_map.mp hp
  have hv : kv.2 ≤ totalShots counts :=
    List.le_sum_of_mem (List.mem_map_of_mem _ hkv)
  rw [div_le_one (by exact_mod_cast hT)]
  exact_mod_cast hv

lemma entropy_eq_negMulLog (counts : Counts) :
    entropy counts = ((probsR counts).map Real.negMulLog).sum / Real.log 2 := by
  unfold entropy
  rw [List.map_congr_left fun p hp => term_eq_negMulLog (probsR_nonneg counts p hp)]
  rw [List.map_congr_left (l := probsR counts)
    (f := fun p => -Real.negMulLog p / Real.log 2)
    (g := fun p => Real.negMulLog p * -(Real.log 2)⁻¹) (fun p _ => by ring)]
  rw [List.sum_map_mul_right]
  ring

lemma list_sum_eq_zero_iff_of_nonneg {l : List ℝ} (h : ∀ x ∈ l, 0 ≤ x) :
    l.sum = 0 ↔ ∀ x ∈ l, x = 0 := by
  induction l with
  | nil => simp
  | cons a t ih =>
    have ha : 0 ≤ a := h a (List.mem_cons_self _ _)
    have ht : ∀ x ∈ t, 0 ≤ x := fun x hx => h x (List.mem_cons_of_mem _ hx)
    rw [List.sum_cons, add_eq_zero_iff_of_nonneg ha (List.sum_nonneg ht), ih ht]
    constructor
    · rintro ⟨h1, h2⟩ x hx
      rcases List.mem_cons.mp hx with rfl | hx
      · exact h1
      · exact h2 x hx
    · intro hall
      exact ⟨hall a (List.mem_cons_self _ _),
        fun x hx => hall x (List.mem_cons_of_mem _ hx)⟩

lemma negMulLog_eq_zero_iff {p : ℝ} (hp : 0 ≤ p) :
    Real.negMulLog p = 0 ↔ p = 0 ∨ p = 1 := by
  unfold Real.negMulLog
  rw [neg_mul, neg_eq_zero, mul_eq_zero, Real.log_eq_zero]
  constructor
  · rintro (h | h | h | h)
    · exact Or.inl h
    · exact Or.inl h
    · exact Or.inr h
    · exact absurd hp (by rw [h]; norm_num)
  · rintro (h | h)
    · exact Or.inl h
    · exact Or.inr (Or.inr (Or.inl h))

lemma filter_length_one_iff {T : Nat} (hT : 0 < T) :
    ∀ vs : List Nat, vs.sum = T →
      (((vs.filter fun v => v ≠ 0).length = 1) ↔ ∀ v ∈ vs, v = 0 ∨ v = T) := by
  intro vs
  induction vs with
  | nil =>
    intro hsum
    rw [List.sum_nil] at hsum
    omega
  | cons v t ih =>
    intro hsum
    rw [List.sum_cons] at hsum
    by_cases hv : v = 0
    · subst hv
      have ht : t.sum = T := by omega
      have hfc : ((0 :: t).filter fun v => v ≠ 0) = t.filter fun v => v ≠ 0 := by
        simp
      rw [hfc, ih ht]
      constructor
      · intro hall x hx
        rcases List.mem_cons.mp hx with rfl | hx
        · exact Or.inl rfl
        · exact hall x hx
      · intro hall x hx
        exact hall x (List.mem_cons_of_mem _ hx)
    · have hfc : ((v :: t).filter fun v => v ≠ 0)
          = v :: (t.filter fun v => v ≠ 0) := by
        simp [hv]
      rw [hfc, List.length_cons]
      constructor
      · intro h1
        have hflen : (t.filter fun v => v ≠ 0).length = 0 := by omega
        have hfnil : (t.filter fun v => v ≠ 0) = [] :=
          List.length_eq_zero.mp hflen
        have hall0 : ∀ x ∈ t, x = 0 := by
          intro x hx
          by_contra hx0
          have hmem : x ∈ t.filter fun v => v ≠ 0 :=
            List.mem_filter.mpr ⟨hx, by simpa using hx0⟩
          rw [hfnil] at hmem
          cases hmem
        have hts : t.sum = 0 := List.sum_eq_zero hall0
        intro x hx
        rcases List.mem_cons.mp hx with rfl | hx
        · right
          omega
        · exact Or.inl (hall0 x hx)
      · intro hall
        have hvT : v = T := by
          rcases hall v (List.mem_cons_self _ _) with h0 | h0
          · exact absurd h0 hv
          · exact h0
        have hts : t.sum = 0 := by omega
        have hall0 : ∀ x ∈ t, x = 0 := by
          intro x hx
          have := List.le_sum_of_mem hx
          omega
        have hfnil : (t.filter fun v => v ≠ 0) = [] := by
          rw [List.filter_eq_nil_iff]
          intro a ha
          simpa using hall0 a ha
        rw [hfnil]
        rfl

/-- C5: the computed entropy is the Shannon entropy in bits of the empirical
distribution (the sum of `negMulLog` over the probabilities, divided by
`log 2`, which encodes `-Σ p·log2 p` with the `0·log2 0 = 0` convention), and
it is 0 exactly when exactly one key carries a non-zero count. -/
theorem entropy_shannon_and_zero_iff (counts : Counts)
    (hT : 0 < totalShots counts) :
    entropy counts = ((probsR counts).map Real.negMulLog).sum / Real.log 2 ∧
    (entropy counts = 0 ↔ (counts.filter fun kv => kv.2 ≠ 0).length = 1) := by
  refine ⟨entropy_eq_negMulLog counts, ?_⟩
  have hlog : Real.log 2 ≠ 0 := ne_of_gt (Real.log_pos (by norm_num))
  rw [entropy_eq_negMulLog counts, div_eq_zero_iff]
  have hnn : ∀ x ∈ (probsR counts).map Real.negMulLog, 0 ≤ x := by
    intro x hx
    obtain ⟨p, hp, rfl⟩ := List.mem_map.mp hx
    exact Real.negMulLog_nonneg (probsR_nonneg counts p hp)
      (probsR_le_one counts hT p hp)
  rw [or_iff_left hlog, list_sum_eq_zero_iff_of_nonneg hnn]
  have hstep : (∀ x ∈ (probsR counts).map Real.negMulLog, x = 0)
      ↔ ∀ kv ∈ counts, kv.2 = 0 ∨ kv.2 = totalShots counts := by
    constructor
    · intro hall kv hkv
      have hp : ((kv.2 : ℝ) / (totalShots counts : ℝ)) ∈ probsR counts :=
        List.mem_map_of_mem _ hkv
      have h0 := hall _ (List.mem_map_of_mem Real.negMulLog hp)
      rcases (negMulLog_eq_zero_iff (probsR_nonneg counts _ hp)).mp h0 with h | h
      · left
        have hTne : (totalShots counts : ℝ) ≠ 0 := by
          exact_mod_cast Nat.pos_iff_ne_zero.mp hT
        rcases div_eq_zero_iff.mp h with h | h
        · exact_mod_cast h
        · exact absurd h hTne
      · right
        have hTne : (totalShots counts : ℝ) ≠ 0 := by
          exact_mod_cast Nat.pos_iff_ne_zero.mp hT
        have := (div_eq_one_iff_eq hTne).mp h
        exact_mod_cast this
    · intro hall x hx
      obtain ⟨p, hp, rfl⟩ := List.mem_map.mp hx
      obtain ⟨kv, hkv, rfl⟩ := List.mem_map.mp hp
      rcases hall kv hkv with h | h
      · rw [h]
        simp
      · rw [h, div_self (by exact_mod_cast Nat.pos_iff_ne_zero.mp hT)]
        exact Real.negMulLog_one
  rw [hstep]
  have hvals := filter_length_one_iff hT (counts.map fun kv => kv.2) (by rfl)
  rw [List.filter_map, List.length_map] at hvals
  have hcomp : (counts.filter ((fun v => decide (v ≠ 0)) ∘ fun kv => kv.2))
      = counts.filter fun kv => kv.2 ≠ 0 := by
    rfl
  rw [hcomp] at hvals
  constructor
  · intro hall
    refine hvals.mpr ?_
    intro v hv
    obtain ⟨kv, hkv, rfl⟩ := List.mem_map.mp hv
    exact hall kv hkv
  · intro hlen kv hkv
    exact hvals.mp hlen kv.2 (List.mem_map_of_mem _ hkv)

/-- Witness for C5 at the single-key counts mapping "0" with 2 shots. -/
theorem entropy_shannon_and_zero_iff_witness :
    0 < totalShots [("0", 2)] ∧
    (entropy [("0", 2)]
        = ((probsR [("0", 2)]).map Real.negMulLog).sum / Real.log 2 ∧
     (entropy [("0", 2)] = 0 ↔
        (([("0", 2)] : Counts).filter fun kv => kv.2 ≠ 0).length = 1)) :=
  ⟨by decide, entropy_shannon_and_zero_iff [("0", 2)] (by decide)⟩

/-- C6: the certainty metric equals `100 × (1 − entropy/max_entropy)` with
`max_entropy = log2(unique_key_count)` and the `entropy/max_entropy` term
taken as 0 when there is at most one unique key, and the certainty is 100
whenever the entropy is 0. -/
theorem certainty_formula (counts : Counts) (hne : counts ≠ [])
    (hT : 0 < totalShots counts) :
    certaintyMetric counts
      = 100 * (1 - (if counts.length ≤ 1 then 0
          else entropy counts / maxEntropy counts)) ∧
    (entropy counts = 0 → certaintyMetric counts = 100) := by
  have hlen : 1 ≤ counts.length := by
    cases counts with
    | nil => exact absurd rfl hne
    | cons a t => simp
  constructor
  · by_cases hc : counts.length ≤ 1
    · have h1 : counts.length = 1 := le_antisymm hc hlen
      unfold certaintyMetric normalizedEntropy maxEntropy
      rw [h1]
      norm_num
    · have h2 : 1 < counts.length := by omega
      have hm : 0 < maxEntropy counts := by
        unfold maxEntropy
        exact Real.logb_pos (by norm_num) (by exact_mod_cast h2)
      unfold certaintyMetric normalizedEntropy
      rw [if_pos hm, if_neg hc]
      ring
  · intro he
    unfold certaintyMetric normalizedEntropy
    by_cases hm : 0 < maxEntropy counts
    · rw [if_pos hm, he]
      norm_num
    · rw [if_neg hm]
      norm_num

/-- Witness for C6 at the single-key counts mapping "0" with 2 shots. -/
theorem certainty_formula_witness :
    (([("0", 2)] : Counts) ≠ [] ∧ 0 < totalShots [("0", 2)]) ∧
    (certaintyMetric [("0", 2)]
        = 100 * (1 - (if ([("0", 2)] : Counts).length ≤ 1 then 0
            else entropy [("0", 2)] / maxEntropy [("0", 2)])) ∧
     (entropy [("0", 2)] = 0 → certaintyMetric [("0", 2)] = 100)) :=
  ⟨⟨by decide, by decide⟩, certainty_formula [("0", 2)] (by decide) (by decide)⟩

end QCRobot
